import Mathlib

/-!
Shallow embedding of `common/buf/buffer.go` from Ryuxn/v2ray-core.

A Go `Buffer` wraps a backing byte slice `v`, two `int32` cursors
`start`/`end`, and a flag `out` recording that the region is NOT owned by
the fixed-size pool.  Bytes are modelled as `Nat`, the backing slice as
`Option (List Nat)` (`none` is Go's nil slice, whose `len` is 0), and the
`int32` cursors as `Int` (the claims never approach `2^31`, so wraparound
is not modelled).  Go's `copy(dst, src)` copies `min (len dst) (len src)`
bytes; Go's slicing `s[a:b]` is modelled by `slice`.
-/

namespace buf

/-- Constant `Size = 8192`, the capacity of every pool-provided region. -/
def Size : Int := 8192

/-- Go slice expression `l[a:b]` (meaningful when `0 ≤ a ≤ b ≤ len l`). -/
def slice (l : List Nat) (a b : Int) : List Nat :=
  (l.drop a.toNat).take (b - a).toNat

/-- Record for `common/buf.Buffer`: field `v` is the backing region (`none` = nil
slice), `start`/`end` the window cursors, `out` the Go field `out`
(true iff the region does not belong to the pool).  The opaque
`Endpoint` metadata is irrelevant to every claim and omitted. -/
structure Buffer where
  v : Option (List Nat)
  start : Int
  end_ : Int
  out : Bool
  deriving Repr, DecidableEq

/-- Go's `len(b.v)` of a possibly-nil slice. -/
def Buffer.cap (b : Buffer) : Nat := (b.v.getD []).length

/-- The value `int32(len(b.v))` as an integer. -/
def Buffer.capI (b : Buffer) : Int := (b.cap : Int)

/-- Constructor `New()` — a buffer over a fresh pool region `r` (the pool hands out
regions of length `Size`; `r` is the region `pool.Get()` returned). -/
def New (r : List Nat) : Buffer :=
  { v := some r, start := 0, end_ := 0, out := false }

/-- Constructor `As(data)` — wrap caller-owned bytes; never pool-owned. -/
def As (data : List Nat) : Buffer :=
  { v := some data, start := 0, end_ := 0, out := true }

/-- Constructor `Get(size)` — pool region `r` if `size <= Size`, else a dedicated
zeroed region of exactly `size` bytes with `out = true`. -/
def Get (r : List Nat) (size : Int) : Buffer :=
  if size ≤ Size then New r
  else { v := some (List.replicate size.toNat 0), start := 0, end_ := 0, out := true }

/-- Method `Buffer.Len()` on a possibly-nil receiver: 0 for nil, else `end - start`. -/
def Len : Option Buffer → Int
  | none => 0
  | some b => b.end_ - b.start

/-- Method `b.Len()` for a non-nil receiver. -/
def Buffer.lenB (b : Buffer) : Int := b.end_ - b.start

/-- Method `Buffer.IsFull()`: `b != nil && b.end == int32(len(b.v))`. -/
def IsFull : Option Buffer → Bool
  | none => false
  | some b => b.end_ == b.capI

/-- Method `b.IsFull()` on a non-nil receiver. -/
def Buffer.isFull (b : Buffer) : Bool := b.end_ == b.capI

/-- Method `Buffer.Clear()`: `start = 0; end = 0`. -/
def Buffer.clear (b : Buffer) : Buffer := { b with start := 0, end_ := 0 }

/-- Method `Buffer.Bytes()`: the window `b.v[b.start:b.end]`. -/
def Buffer.bytes (b : Buffer) : List Nat := slice (b.v.getD []) b.start b.end_

/-- Method `Buffer.Release()` on a possibly-nil handle.  Returns the updated
handle and whether a region was handed back to the pool (`pool.Put`).
Go: `if b == nil || b.v == nil || b.out { return }; p := b.v; b.v = nil;
b.Clear(); pool.Put(p)`. -/
def Release : Option Buffer → Option Buffer × Bool
  | none => (none, false)
  | some b =>
    if b.v = none ∨ b.out then (some b, false)
    else (some { v := none, start := 0, end_ := 0, out := b.out }, true)

/-- Method `Buffer.Require(requiredLength)`.  Go grows by allocating
`nb := make([]byte, requiredLength)` (all zeros) and then executes
`copy(b.v[b.start:b.end], nb[b.start:b.end])` — destination is the OLD
window, source the zeroed new region — before `b.v = nb`.  The old
region (its window now zeroed) is discarded (put back in the pool when
it was pool-owned), so the state after the call has `v = nb` untouched:
the window content is NOT carried over. -/
def Buffer.require (b : Buffer) (requiredLength : Int) : Buffer :=
  if b.capI ≥ requiredLength then b
  else { b with v := some (List.replicate requiredLength.toNat 0), out := true }

/-- Method `Buffer.Write(data)`: `Require(end + len data)`, then
`copy(b.v[b.end:], data)` and `b.end += nBytes`.  Returns the new state
and `nBytes` (the error is always nil). -/
def Buffer.write (b : Buffer) (data : List Nat) : Buffer × Nat :=
  let b1 := b.require (b.end_ + data.length)
  let v := b1.v.getD []
  let pos := b1.end_.toNat
  let n := min (v.length - pos) data.length
  let v2 := v.take pos ++ data.take n ++ v.drop (pos + n)
  ({ b1 with v := some v2, end_ := b1.end_ + n }, n)

/-- Method `Buffer.WriteByte(v)`: returns the new state and whether the call
failed with the "buffer full" error. -/
def Buffer.writeByte (b : Buffer) (val : Nat) : Buffer × Bool :=
  if b.isFull then (b, true)
  else ({ b with v := some ((b.v.getD []).set b.end_.toNat val),
                 end_ := b.end_ + 1 }, false)

/-- Method `Buffer.Read(data)`: returns the new state, the updated destination
slice, `nBytes`, and whether the call returned `io.EOF`.  Go:
`if b.Len() == 0 { return 0, io.EOF }; nBytes := copy(data, b.v[b.start:b.end]);
if int32(nBytes) == b.Len() { b.Clear() } else { b.start += int32(nBytes) }`. -/
def Buffer.read (b : Buffer) (data : List Nat) : Buffer × List Nat × Nat × Bool :=
  if b.lenB = 0 then (b, data, 0, true)
  else
    let window := slice (b.v.getD []) b.start b.end_
    let n := min data.length window.length
    let data2 := window.take n ++ data.drop n
    if (n : Int) = b.lenB then (b.clear, data2, n, false)
    else ({ b with start := b.start + n }, data2, n, false)

/-- The negative-index normalization `if from < 0 { from += b.Len() }`
shared by `Advance` and `Resize`. -/
def normIdx (b : Buffer) (i : Int) : Int := if i < 0 then i + b.lenB else i

/-- Method `Buffer.Advance(from)`: normalize a negative index by `+= Len()`,
then `b.start += from`.  No bounds check. -/
def Buffer.advance (b : Buffer) (from_ : Int) : Buffer :=
  { b with start := b.start + normIdx b from_ }

/-- Method `Buffer.Resize(from, to)`: normalize negative indices, panic
(`none`) when `to < from`, else `b.end = b.start + to; b.start += from`
(the original `start` is used for both). -/
def Buffer.resize (b : Buffer) (from_ to_ : Int) : Option Buffer :=
  let f := normIdx b from_
  let t := normIdx b to_
  if t < f then none
  else some { b with end_ := b.start + t, start := b.start + f }

/-- Method `Buffer.Extend(n)`: `Require(end + n)`, return the slice
`b.v[b.end : b.end + n]`, set `b.end += n`. -/
def Buffer.extend (b : Buffer) (n : Int) : Buffer × List Nat :=
  let e := b.end_ + n
  let b1 := b.require e
  let ext := slice (b1.v.getD []) b1.end_ e
  ({ b1 with end_ := e }, ext)

/-- Constructor `From(data)`: `Get(int32(len(data)))` then `Write(data)`. -/
def From (r : List Nat) (data : List Nat) : Buffer :=
  ((Get r data.length).write data).1

/-! ### A step relation over the buffer operations

Used to state the trace properties (window invariant, stickiness of the
`out` flag) over arbitrary sequences of calls. -/

/-- One buffer operation together with its arguments. -/
inductive Op where
  | write (data : List Nat)
  | writeByte (val : Nat)
  | read (dst : List Nat)
  | advance (f : Int)
  | resize (f t : Int)
  | clear
  | require (n : Int)
  | extend (n : Int)
  | release
  deriving Repr, DecidableEq

/-- The state after executing one operation (for `resize`, the state is
unchanged when the call panics; for `release`, the handle keeps pointing
at the same `Buffer` record, so the post-state is that record). -/
def applyOp (b : Buffer) : Op → Buffer
  | .write d => (b.write d).1
  | .writeByte v => (b.writeByte v).1
  | .read d => (b.read d).1
  | .advance f => b.advance f
  | .resize f t => (b.resize f t).getD b
  | .clear => b.clear
  | .require n => b.require n
  | .extend n => (b.extend n).1
  | .release => ((Release (some b)).1).getD b

/-- The state after a sequence of operations. -/
def applyOps (b : Buffer) : List Op → Buffer
  | [] => b
  | op :: ops => applyOps (applyOp b op) ops

/-- Runs `k` consecutive `WriteByte(val)` calls (each call's returned state
feeds the next; a failing call leaves the state unchanged). -/
def iterWB (val : Nat) (b : Buffer) : Nat → Buffer
  | 0 => b
  | k+1 => ((iterWB val b k).writeByte val).1

/-- The window invariant: `0 ≤ start ≤ end ≤ capacity(region)`. -/
def Inv (b : Buffer) : Prop :=
  0 ≤ b.start ∧ b.start ≤ b.end_ ∧ b.end_ ≤ b.capI

instance (b : Buffer) : Decidable (Inv b) := by unfold Inv; infer_instance

/-- Range side conditions on an operation's arguments: `advance` must
stay inside the window, `resize` must target a range inside the region,
`extend` takes a nonnegative count.  All remaining operations need no
side condition. -/
def pre (b : Buffer) : Op → Prop
  | .advance f => 0 ≤ normIdx b f ∧ normIdx b f ≤ b.lenB
  | .resize f t => 0 ≤ normIdx b f ∧ normIdx b f ≤ normIdx b t ∧
      b.start + normIdx b t ≤ b.capI
  | .extend n => 0 ≤ n
  | _ => True

instance (b : Buffer) (op : Op) : Decidable (pre b op) := by
  cases op <;> unfold pre <;> infer_instance

/-- Every operation of the trace satisfies its side condition in the
state where it runs. -/
def OkTrace : Buffer → List Op → Prop
  | _, [] => True
  | b, op :: ops => pre b op ∧ OkTrace (applyOp b op) ops

def decOkTrace : (b : Buffer) → (l : List Op) → Decidable (OkTrace b l)
  | _, [] => .isTrue trivial
  | b, op :: ops => @instDecidableAnd _ _ _ (decOkTrace (applyOp b op) ops)

instance (b : Buffer) (l : List Op) : Decidable (OkTrace b l) := decOkTrace b l

/-! ### Basic lemmas about the operations -/

theorem capI_nonneg (b : Buffer) : 0 ≤ b.capI := Int.ofNat_nonneg _

theorem require_start (b : Buffer) (n : Int) : (b.require n).start = b.start := by
  unfold Buffer.require; split <;> rfl

theorem require_end (b : Buffer) (n : Int) : (b.require n).end_ = b.end_ := by
  unfold Buffer.require; split <;> rfl

theorem require_capI (b : Buffer) (n : Int) :
    n ≤ (b.require n).capI ∧ b.capI ≤ (b.require n).capI := by
  unfold Buffer.require
  split
  · omega
  · simp only [Buffer.capI, Buffer.cap, Option.getD_some, List.length_replicate]
    simp only [Buffer.capI, Buffer.cap] at *
    omega

theorem require_out (b : Buffer) (n : Int) (h : b.out = true) : (b.require n).out = true := by
  unfold Buffer.require; split
  · exact h
  · rfl

theorem require_Inv (b : Buffer) (n : Int) (h : Inv b) : Inv (b.require n) := by
  have hc := (require_capI b n).2
  obtain ⟨h1, h2, h3⟩ := h
  exact ⟨by rw [require_start]; exact h1,
         by rw [require_start, require_end]; exact h2,
         by rw [require_end]; omega⟩

theorem write_Inv (b : Buffer) (d : List Nat) (h : Inv b) : Inv (b.write d).1 := by
  have hs := require_start b (b.end_ + d.length)
  have he := require_end b (b.end_ + d.length)
  have hc := (require_capI b (b.end_ + d.length)).1
  have hI := require_Inv b (b.end_ + d.length) h
  simp only [Buffer.write]
  simp only [Inv, Buffer.capI, Buffer.cap, Option.getD_some, List.length_append,
    List.length_take, List.length_drop] at *
  omega

theorem writeByte_Inv (b : Buffer) (v : Nat) (h : Inv b) : Inv (b.writeByte v).1 := by
  simp only [Buffer.writeByte]
  split
  · exact h
  · rename_i hfull
    simp only [Buffer.isFull, Buffer.capI, Buffer.cap, beq_iff_eq] at hfull
    simp only [Inv, Buffer.capI, Buffer.cap, Option.getD_some, List.length_set] at *
    omega

theorem clear_Inv (b : Buffer) : Inv b.clear :=
  ⟨le_refl 0, le_refl 0, by simp [Buffer.clear, Buffer.capI, Buffer.cap]⟩

theorem read_Inv (b : Buffer) (d : List Nat) (h : Inv b) : Inv (b.read d).1 := by
  simp only [Buffer.read]
  split
  · exact h
  · split
    · exact clear_Inv b
    · simp only [Inv, slice, Buffer.lenB, Buffer.capI, Buffer.cap,
        List.length_take, List.length_drop, List.length_append] at *
      omega

theorem advance_Inv (b : Buffer) (f : Int) (h : Inv b)
    (hp : 0 ≤ normIdx b f ∧ normIdx b f ≤ b.lenB) : Inv (b.advance f) := by
  simp only [Buffer.advance]
  simp only [Inv, Buffer.lenB, Buffer.capI, Buffer.cap] at *
  omega

theorem resize_Inv (b : Buffer) (f t : Int) (h : Inv b)
    (hp : 0 ≤ normIdx b f ∧ normIdx b f ≤ normIdx b t ∧ b.start + normIdx b t ≤ b.capI) :
    Inv ((b.resize f t).getD b) := by
  simp only [Buffer.resize]
  rw [if_neg (by omega)]
  simp only [Option.getD_some]
  simp only [Inv, Buffer.capI, Buffer.cap] at *
  omega

theorem extend_Inv (b : Buffer) (n : Int) (h : Inv b) (hn : 0 ≤ n) :
    Inv (b.extend n).1 := by
  have hs := require_start b (b.end_ + n)
  have he := require_end b (b.end_ + n)
  have hc := (require_capI b (b.end_ + n)).1
  have hI := require_Inv b (b.end_ + n) h
  simp only [Buffer.extend]
  simp only [Inv, Buffer.capI, Buffer.cap] at *
  omega

theorem release_step_Inv (b : Buffer) (h : Inv b) : Inv (((Release (some b)).1).getD b) := by
  simp only [Release]
  split
  · simpa using h
  · simp only [Option.getD_some]
    exact ⟨le_refl 0, le_refl 0, capI_nonneg _⟩

/-- Each operation, run under its side condition from a state satisfying
the window invariant, re-establishes the window invariant. -/
theorem applyOp_Inv (b : Buffer) (op : Op) (h : Inv b) (hp : pre b op) :
    Inv (applyOp b op) := by
  cases op with
  | write d => exact write_Inv b d h
  | writeByte v => exact writeByte_Inv b v h
  | read d => exact read_Inv b d h
  | advance f => exact advance_Inv b f h hp
  | resize f t => exact resize_Inv b f t h hp
  | clear => exact clear_Inv b
  | require n => exact require_Inv b n h
  | extend n => exact extend_Inv b n h hp
  | release => exact release_step_Inv b h

/-- No operation ever resets the `out` flag. -/
theorem applyOp_out (b : Buffer) (op : Op) (h : b.out = true) :
    (applyOp b op).out = true := by
  cases op with
  | write d =>
    show (b.write d).1.out = true
    simp only [Buffer.write]
    exact require_out b _ h
  | writeByte v =>
    show (b.writeByte v).1.out = true
    simp only [Buffer.writeByte]
    split <;> simp [h]
  | read d =>
    show (b.read d).1.out = true
    simp only [Buffer.read]
    split
    · exact h
    · split <;> simp [Buffer.clear, h]
  | advance f => exact h
  | resize f t =>
    show ((b.resize f t).getD b).out = true
    simp only [Buffer.resize]
    split
    · exact h
    · simp [h]
  | clear => exact h
  | require n => exact require_out b n h
  | extend n =>
    show (b.extend n).1.out = true
    simp only [Buffer.extend]
    exact require_out b _ h
  | release =>
    show (((Release (some b)).1).getD b).out = true
    simp only [Release]
    split
    · simpa using h
    · simp [h]

/-! ### Characterizations of read and write -/

theorem bytes_length (b : Buffer) (h : Inv b) : (b.bytes.length : Int) = b.lenB := by
  obtain ⟨h1, h2, h3⟩ := h
  simp only [Buffer.capI, Buffer.cap] at h3
  simp only [Buffer.bytes, slice, Buffer.lenB, List.length_take, List.length_drop]
  omega

theorem read_empty (b : Buffer) (dst : List Nat) (h : b.lenB = 0) :
    b.read dst = (b, dst, 0, true) := by
  simp [Buffer.read, h]

theorem read_nonempty (b : Buffer) (dst : List Nat) (h : ¬ b.lenB = 0) :
    b.read dst =
      (if ((min dst.length b.bytes.length : Nat) : Int) = b.lenB then b.clear
         else { b with start := b.start + ((min dst.length b.bytes.length : Nat) : Int) },
       b.bytes.take (min dst.length b.bytes.length) ++
         dst.drop (min dst.length b.bytes.length),
       min dst.length b.bytes.length, false) := by
  simp only [Buffer.read, Buffer.bytes]
  rw [if_neg h]
  split <;> rfl

theorem write_fresh (l d : List Nat) (o : Bool) (hl : d.length ≤ l.length) :
    ({ v := some l, start := 0, end_ := 0, out := o } : Buffer).write d =
      ({ v := some (d ++ l.drop d.length), start := 0, end_ := d.length, out := o },
       d.length) := by
  have hreq : ({ v := some l, start := 0, end_ := 0, out := o } : Buffer).require
      (0 + (d.length : Int)) = { v := some l, start := 0, end_ := 0, out := o } := by
    rw [Buffer.require, if_pos]
    simp only [Buffer.capI, Buffer.cap, Option.getD_some]
    omega
  simp only [Buffer.write]
  rw [hreq]
  simp
  have hn : l.length ⊓ d.length = d.length := by omega
  rw [hn, List.take_length]
  exact ⟨rfl, hl⟩

theorem read_all_eq (data pad dst : List Nat) (o : Bool) (hd : dst.length = data.length) :
    ({ v := some (data ++ pad), start := 0, end_ := data.length, out := o } :
        Buffer).read dst =
      (({ v := some (data ++ pad), start := 0, end_ := data.length, out := o } :
          Buffer).clear,
       data, data.length, decide (data.length = 0)) := by
  by_cases hz : data.length = 0
  · have hdata : data = [] := List.length_eq_zero.mp hz
    have hdst : dst = [] := List.length_eq_zero.mp (by omega)
    subst hdata
    subst hdst
    simp [Buffer.read, Buffer.lenB, Buffer.clear]
  · have hne : ¬ (({ v := some (data ++ pad), start := 0, end_ := data.length, out := o } :
        Buffer).lenB = 0) := by
      simp only [Buffer.lenB]
      omega
    rw [read_nonempty _ dst hne]
    have hbytes : ({ v := some (data ++ pad), start := 0, end_ := data.length, out := o } :
        Buffer).bytes = data := by
      simp only [Buffer.bytes, slice, Option.getD_some]
      have h1 : ((data.length : Int) - 0).toNat = data.length := by omega
      have h2 : ((0 : Int)).toNat = 0 := rfl
      rw [h1, h2, List.drop_zero, List.take_left]
    rw [hbytes]
    have hmin : min dst.length data.length = data.length := by omega
    rw [hmin]
    rw [if_pos (by simp [Buffer.lenB])]
    have h2 : data.take data.length ++ dst.drop data.length = data := by
      rw [List.take_length, ← hd, List.drop_length, List.append_nil]
    rw [h2]
    have h4 : decide (data.length = 0) = false := by simp [hz]
    rw [h4]

theorem From_shape (r data : List Nat) (hr : r.length = 8192) :
    ∃ (pad : List Nat) (o : Bool),
      From r data =
        { v := some (data ++ pad), start := 0, end_ := data.length, out := o } := by
  have hS : Size = (8192 : Int) := rfl
  by_cases hle : (data.length : Int) ≤ Size
  · refine ⟨r.drop data.length, false, ?_⟩
    simp only [From, Get, New]
    rw [if_pos hle]
    rw [write_fresh r data false (by omega)]
  · refine ⟨(List.replicate data.length 0).drop data.length, true, ?_⟩
    simp only [From, Get]
    rw [if_neg hle]
    have ht : ((data.length : Int)).toNat = data.length := Int.toNat_natCast _
    rw [ht]
    rw [write_fresh (List.replicate data.length 0) data true
      (by rw [List.length_replicate])]

theorem writeByte_cases (c : Buffer) (w : Nat) :
    ((c.writeByte w).2 = true ↔ c.isFull = true) ∧
    (c.isFull = true → (c.writeByte w).1 = c) ∧
    (c.writeByte w).1.cap = c.cap ∧
    (c.isFull = false →
      (c.writeByte w).1 = { c with v := some ((c.v.getD []).set c.end_.toNat w),
                                   end_ := c.end_ + 1 }) := by
  by_cases hf : c.isFull
  · simp [Buffer.writeByte, hf]
  · have hf' : c.isFull = false := by simpa using hf
    simp [Buffer.writeByte, hf', Buffer.cap, List.length_set]

theorem iterWB_spec (r : List Nat) (val : Nat) (hr : r.length = 8192) :
    ∀ k : Nat, k ≤ 8192 →
      (iterWB val (New r) k).end_ = k ∧ (iterWB val (New r) k).cap = 8192 := by
  intro k
  induction k with
  | zero => exact fun _ => ⟨rfl, by simp [iterWB, New, Buffer.cap, hr]⟩
  | succ k ih =>
    intro hk
    obtain ⟨ih1, ih2⟩ := ih (by omega)
    have hc : (iterWB val (New r) k).capI = 8192 := by
      rw [Buffer.capI, ih2]; rfl
    have hfull : (iterWB val (New r) k).isFull = false := by
      rw [Buffer.isFull, ih1, hc]
      simp only [beq_eq_false_iff_ne, ne_eq]
      omega
    have hstate := (writeByte_cases (iterWB val (New r) k) val).2.2.2 hfull
    constructor
    · show ((iterWB val (New r) k).writeByte val).1.end_ = ((k + 1 : Nat) : Int)
      rw [hstate, ih1]
      push_cast
      ring
    · show ((iterWB val (New r) k).writeByte val).1.cap = 8192
      rw [(writeByte_cases (iterWB val (New r) k) val).2.2.1, ih2]

theorem iterWB_isFull (r : List Nat) (val : Nat) (hr : r.length = 8192) (k : Nat)
    (hk : k ≤ 8192) : (iterWB val (New r) k).isFull = decide (k = 8192) := by
  obtain ⟨h1, h2⟩ := iterWB_spec r val hr k hk
  have hc : (iterWB val (New r) k).capI = 8192 := by
    rw [Buffer.capI, h2]; rfl
  rw [Buffer.isFull, h1, hc]
  by_cases h : k = 8192
  · subst h; rfl
  · have hne : ((k : Int)) ≠ 8192 := by omega
    simp [h, hne]

/-! ### The claims -/

/-- C1: the spec says `Require(n)`, when the region is too small and the
window is non-empty, copies the window into the same offsets of the new
`n`-byte region so `Bytes()` is unchanged.  The code instead executes
`copy(b.v[b.start:b.end], nb[b.start:b.end])` with destination and
source swapped, so after growing, the window reads back all zeros: for
a buffer holding `[5,6,7]` (window `[0,3)`, capacity 3), `Require 5`
yields a region of exactly 5 bytes but `Bytes() = [0,0,0]`, not
`[5,6,7]`. -/
theorem require_growth_loses_window_content :
    (((As [0,0,0]).write [5,6,7]).1.bytes = [5,6,7]) ∧
    ((((As [0,0,0]).write [5,6,7]).1.require 5).cap = 5) ∧
    ((((As [0,0,0]).write [5,6,7]).1.require 5).start =
      ((As [0,0,0]).write [5,6,7]).1.start) ∧
    ((((As [0,0,0]).write [5,6,7]).1.require 5).end_ =
      ((As [0,0,0]).write [5,6,7]).1.end_) ∧
    ((((As [0,0,0]).write [5,6,7]).1.require 5).bytes = [0,0,0]) ∧
    ((((As [0,0,0]).write [5,6,7]).1.require 5).bytes ≠
      ((As [0,0,0]).write [5,6,7]).1.bytes) := by decide

/-- C2, counterexample: under the spec's stated preconditions alone the
window invariant is not maintained — `Advance(3)` on a fresh (empty)
pool buffer sets `start = 3 > end = 0` without aborting. -/
theorem advance_breaks_window_invariant :
    ¬ Inv ((New (List.replicate 8192 0)).advance 3) := by
  intro h
  have h2 := h.2.1
  have hs : ((New (List.replicate 8192 0)).advance 3).start = 3 := by
    simp only [New, Buffer.advance, normIdx, Buffer.lenB]
    norm_num
  have he : ((New (List.replicate 8192 0)).advance 3).end_ = 0 := rfl
  omega

/-- C2, amended: the window invariant `0 ≤ start ≤ end ≤ capacity` is
preserved by every sequence of operations (write, writeByte, read,
advance, resize, clear, require, extend, release) provided each
`advance`'s normalized argument lies in `[0, Len()]` and each `resize`'s
normalized arguments satisfy `0 ≤ from ≤ to` and `start + to ≤
capacity`. -/
theorem window_invariant_preserved (b : Buffer) (ops : List Op)
    (hInv : Inv b) (htrace : OkTrace b ops) : Inv (applyOps b ops) := by
  induction ops generalizing b with
  | nil => exact hInv
  | cons op ops ih =>
    obtain ⟨h1, h2⟩ := htrace
    exact ih (applyOp b op) (applyOp_Inv b op hInv h1)  h2

theorem window_invariant_preserved_witness :
    Inv (As [1,2,3]) ∧
    OkTrace (As [1,2,3]) [Op.write [7,7], Op.advance 1, Op.resize 0 1, Op.release] ∧
    Inv (applyOps (As [1,2,3]) [Op.write [7,7], Op.advance 1, Op.resize 0 1, Op.release]) :=
  ⟨by decide, by decide,
   window_invariant_preserved (As [1,2,3])
     [Op.write [7,7], Op.advance 1, Op.resize 0 1, Op.release] (by decide) (by decide)⟩

/-- C3, counterexample: on a buffer whose region is not pool-owned
(`out = true`, here wrapped bytes holding `[9,9,9]`), `Release` returns
immediately: it does NOT clear the cursors, and `Len` stays 3, not 0. -/
theorem release_nonpool_keeps_cursors :
    Release (some (((As [0,0,0]).write [9,9,9]).1)) =
      (some (((As [0,0,0]).write [9,9,9]).1), false) ∧
    Len (Release (some (((As [0,0,0]).write [9,9,9]).1))).1 = 3 ∧
    Len (Release (some (((As [0,0,0]).write [9,9,9]).1))).1 ≠ 0 := by decide

/-- C3, amended: for a buffer whose backing region is not pool-owned
(`out = true`), `Release` is a complete no-op: the buffer (cursors
included) is unchanged and nothing is returned to the pool. -/
theorem release_nonpool_noop (b : Buffer) (h : b.out = true) :
    Release (some b) = (some b, false) := by
  simp [Release, h]

theorem release_nonpool_noop_witness :
    (As [1,2]).out = true ∧ Release (some (As [1,2])) = (some (As [1,2]), false) :=
  ⟨rfl, release_nonpool_noop (As [1,2]) rfl⟩

/-- C4: the `out` flag (negation of "recyclable") is sticky — once
true, no sequence of operations ever resets it. -/
theorem out_flag_sticky (b : Buffer) (ops : List Op) (h : b.out = true) :
    (applyOps b ops).out = true := by
  induction ops generalizing b with
  | nil => exact h
  | cons op ops ih => exact ih (applyOp b op) (applyOp_out b op h)

theorem out_flag_sticky_witness :
    (As [1]).out = true ∧
    (applyOps (As [1]) [Op.clear, Op.resize 0 0, Op.release]).out = true :=
  ⟨rfl, out_flag_sticky (As [1]) [Op.clear, Op.resize 0 0, Op.release] rfl⟩

/-- C5: `Release` is total and idempotent — it is a no-op on a nil
handle, and a second `Release` never changes the state again and never
hands a region back to the pool (the `Bool` component records a
`pool.Put`). -/
theorem release_idempotent :
    Release none = (none, false) ∧
    (∀ ob : Option Buffer, Release (Release ob).1 = ((Release ob).1, false)) := by
  refine ⟨rfl, ?_⟩
  intro ob
  cases ob with
  | none => rfl
  | some b =>
    by_cases hvo : b.v = none ∨ b.out = true
    · simp [Release, hvo]
    · simp [Release, hvo]

/-- C9: `Get(n)` hands out a pool-backed, recyclable, empty buffer
(identical to `New`) when `n ≤ 8192`, and a dedicated empty region of
capacity exactly `n` with `out = true` when `n > 8192`. -/
theorem get_pool_or_dedicated (r : List Nat) (n : Int) (hr : r.length = 8192) :
    (n ≤ 8192 → Get r n = New r ∧ (Get r n).out = false ∧
      Len (some (Get r n)) = 0 ∧ (Get r n).capI = 8192) ∧
    (8192 < n → (Get r n).capI = n ∧ (Get r n).out = true ∧
      Len (some (Get r n)) = 0) := by
  have hS : Size = 8192 := rfl
  constructor
  · intro hn
    rw [Get, if_pos (by omega)]
    simp [New, Len, Buffer.capI, Buffer.cap, hr]
  · intro hn
    rw [Get, if_neg (by omega)]
    refine ⟨?_, rfl, rfl⟩
    simp only [Buffer.capI, Buffer.cap, Option.getD_some, List.length_replicate]
    omega

theorem get_pool_or_dedicated_witness :
    (List.replicate 8192 0).length = 8192 ∧
    ((Get (List.replicate 8192 0) 20000).capI = 20000 ∧
     (Get (List.replicate 8192 0) 20000).out = true ∧
     Len (some (Get (List.replicate 8192 0) 20000)) = 0) :=
  ⟨List.length_replicate 8192 0,
   (get_pool_or_dedicated (List.replicate 8192 0) 20000 (List.length_replicate 8192 0)).2
     (by omega)⟩

/-- C10: after `Release` of a pool-backed buffer the stale handle is
safe: `Len = 0`, `IsFull = true` (the nil region has zero capacity),
a further `WriteByte` fails with the buffer-full error leaving the
state unchanged, and `IsFull` of a nil handle is `false`. -/
theorem released_handle_safe (b : Buffer) (val : Nat) (r : List Nat)
    (hv : b.v = some r) (hout : b.out = false) :
    Release (some b) = (some { v := none, start := 0, end_ := 0, out := false }, true) ∧
    Len (Release (some b)).1 = 0 ∧
    IsFull (Release (some b)).1 = true ∧
    ({ v := none, start := 0, end_ := 0, out := false : Buffer }.writeByte val) =
      ({ v := none, start := 0, end_ := 0, out := false : Buffer }, true) ∧
    IsFull none = false := by
  have hcond : ¬ (b.v = none ∨ b.out = true) := by simp [hv, hout]
  rw [Release, if_neg hcond]
  rw [hout]
  refine ⟨rfl, rfl, rfl, ?_, rfl⟩
  simp [Buffer.writeByte, Buffer.isFull, Buffer.capI, Buffer.cap]

theorem released_handle_safe_witness :
    (New (List.replicate 4 0)).v = some (List.replicate 4 0) ∧
    (New (List.replicate 4 0)).out = false ∧
    Len (Release (some (New (List.replicate 4 0)))).1 = 0 :=
  ⟨rfl, rfl,
   (released_handle_safe (New (List.replicate 4 0)) 7 (List.replicate 4 0) rfl rfl).2.1⟩

/-- C6: round-trip — `From(bytes)` followed by one `Read` into a
destination of the same length hands back exactly `bytes` and leaves
the buffer empty (`Len = 0`).  (`r` is the pool region backing the
buffer when `len(bytes) ≤ 8192`; holds for the zero-length case too,
where `Read` returns `io.EOF` having copied the 0 bytes.) -/
theorem from_read_roundtrip (r data dst : List Nat) (hr : r.length = 8192)
    (hd : dst.length = data.length) :
    ((From r data).read dst).2.1 = data ∧ ((From r data).read dst).1.lenB = 0 := by
  obtain ⟨pad, o, hF⟩ := From_shape r data hr
  rw [hF, read_all_eq data pad dst o hd]
  exact ⟨rfl, rfl⟩

theorem from_read_roundtrip_witness :
    (List.replicate 8192 0).length = 8192 ∧
    ([0, 0, 0] : List Nat).length = [1, 2, 3].length ∧
    ((From (List.replicate 8192 0) [1, 2, 3]).read [0, 0, 0]).2.1 = [1, 2, 3] ∧
    ((From (List.replicate 8192 0) [1, 2, 3]).read [0, 0, 0]).1.lenB = 0 :=
  ⟨List.length_replicate 8192 0, rfl,
   (from_read_roundtrip (List.replicate 8192 0) [1, 2, 3] [0, 0, 0]
      (List.length_replicate 8192 0) rfl).1,
   (from_read_roundtrip (List.replicate 8192 0) [1, 2, 3] [0, 0, 0]
      (List.length_replicate 8192 0) rfl).2⟩

/-- C7: `Read(dst)` returns `io.EOF` iff `Len() = 0` (leaving everything
unchanged); otherwise it copies `min(len(dst), Len())` bytes from the
front of the window into `dst`, and then clears the buffer (both
cursors 0) when the whole window was drained, else advances `start` by
the amount copied leaving `end` and the region unchanged. -/
theorem read_contract (b : Buffer) (dst : List Nat) (h : Inv b) :
    ((b.read dst).2.2.2 = true ↔ b.lenB = 0) ∧
    (b.lenB = 0 → b.read dst = (b, dst, 0, true)) ∧
    (b.lenB ≠ 0 →
      (((b.read dst).2.2.1 : Int) = min (dst.length : Int) b.lenB ∧
       (b.read dst).2.1 =
         b.bytes.take (b.read dst).2.2.1 ++ dst.drop (b.read dst).2.2.1 ∧
       (((b.read dst).2.2.1 : Int) = b.lenB → (b.read dst).1 = b.clear) ∧
       (((b.read dst).2.2.1 : Int) ≠ b.lenB →
         (b.read dst).1 = { b with start := b.start + ((b.read dst).2.2.1 : Int) }))) := by
  have hb := bytes_length b h
  by_cases h0 : b.lenB = 0
  · rw [read_empty b dst h0]
    exact ⟨by simp [h0], fun _ => rfl, fun hne => absurd h0 hne⟩
  · rw [read_nonempty b dst h0]
    dsimp only
    refine ⟨by simp [h0], fun hc => absurd hc h0, fun _ => ⟨by omega, rfl, ?_, ?_⟩⟩
    · intro hcl
      rw [if_pos hcl]
    · intro hcl
      rw [if_neg hcl]

theorem read_contract_witness :
    Inv (((As [0, 0, 0]).write [5, 6, 7]).1) ∧
    (((((As [0, 0, 0]).write [5, 6, 7]).1.read [0, 0]).2.2.2 = true) ↔
      (((As [0, 0, 0]).write [5, 6, 7]).1.lenB = 0)) :=
  ⟨by decide,
   (read_contract (((As [0, 0, 0]).write [5, 6, 7]).1) [0, 0] (by decide)).1⟩

/-- C8: `WriteByte` fails with the buffer-full error iff `IsFull` (that
is, `end` equals the region's capacity), leaving the buffer unchanged;
otherwise it stores the byte at offset `end` and increments `end`,
never changing the region's capacity.  On a fresh pool buffer of
capacity 8192 it therefore succeeds on each of the first 8192 calls and
the 8193rd call fails. -/
theorem writeByte_contract (r : List Nat) (val : Nat) (hr : r.length = 8192) :
    (∀ (c : Buffer) (w : Nat),
      ((c.writeByte w).2 = true ↔ c.isFull = true) ∧
      (c.isFull = true → (c.writeByte w).1 = c) ∧
      (c.writeByte w).1.cap = c.cap ∧
      (c.isFull = false →
        (c.writeByte w).1 = { c with v := some ((c.v.getD []).set c.end_.toNat w),
                                     end_ := c.end_ + 1 })) ∧
    (∀ k : Nat, k < 8192 → ((iterWB val (New r) k).writeByte val).2 = false) ∧
    ((iterWB val (New r) 8192).writeByte val).2 = true := by
  refine ⟨writeByte_cases, ?_, ?_⟩
  · intro k hk
    have hfull : (iterWB val (New r) k).isFull = false := by
      rw [iterWB_isFull r val hr k (by omega)]
      simp [Nat.ne_of_lt hk]
    simp [Buffer.writeByte, hfull]
  · have hfull : (iterWB val (New r) 8192).isFull = true := by
      rw [iterWB_isFull r val hr 8192 le_rfl]
      simp
    simp [Buffer.writeByte, hfull]

theorem writeByte_contract_witness :
    (List.replicate 8192 0).length = 8192 ∧
    ((iterWB 7 (New (List.replicate 8192 0)) 8192).writeByte 7).2 = true :=
  ⟨List.length_replicate 8192 0,
   (writeByte_contract (List.replicate 8192 0) 7 (List.length_replicate 8192 0)).2.2⟩

end buf
